import Mathlib

/-!
Verification of the asm2go disassembly-extraction and instruction re-encoding
pipeline.  The definitions below are a shallow embedding of the Go sources:

* `assembler/assembler.go` (the revision whose `MachineInstruction` carries a
  `BytesEndianness` field and a numeric `Address`): `WriteOutput`,
  `writePlan9Supported`, `writePlan9Unsupported`, `reverseEndianness`,
  `errIsUnsupported`.
* the GNU assembler implementation (`ProcessMachineCodeToInstructions`,
  `processObjdumpTable`, `parseFlagString`) which builds the earlier revision's
  `MachineInstruction` (string `Address`, no endianness field).
* `generatePlan9Assembly` from the command-line driver (the per-symbol
  instruction loop and the trailing `RET`).

Go slices of bytes are modelled as `List Nat` (each element a `uint8` value,
0 ≤ b < 256).  Go's `fmt.Fprintf` calls are modelled by explicit string
construction; `%02x` on a byte is two lowercase hex digits.  Fallible Go code
returns `GoResult`, which distinguishes returned errors from run-time panics
(out-of-range slice expressions).
-/

namespace Asm2go

/-- Result of running a piece of Go code: a normal value, a returned `error`,
or a run-time panic (e.g. a slice-bounds violation). -/
inductive GoResult (α : Type) where
  | ok (a : α)
  | error (msg : String)
  | panicked (msg : String)
deriving Repr, DecidableEq

def GoResult.bind {α β : Type} : GoResult α → (α → GoResult β) → GoResult β
  | .ok a, f => f a
  | .error m, _ => .error m
  | .panicked m, _ => .panicked m

def GoResult.map {α β : Type} (f : α → β) : GoResult α → GoResult β
  | .ok a => .ok (f a)
  | .error m => .error m
  | .panicked m => .panicked m

def GoResult.isError {α : Type} : GoResult α → Bool
  | .error _ => true
  | _ => false

/-- The dynamic value of the `binary.ByteOrder` interface field: the zero value
`nil`, `binary.LittleEndian`, or `binary.BigEndian`. -/
inductive ByteOrder where
  | none
  | little
  | big
deriving Repr, DecidableEq

/-- `MachineInstruction` of `assembler/assembler.go` (the revision with the
`BytesEndianness` field and `Address uint64`). -/
structure MachineInstruction where
  RawInstruction : String
  InstructionString : String
  Bytes : List Nat
  BytesEndianness : ByteOrder
  Command : String
  Arguments : List String
  LineNumber : Nat
  Comment : String
  Address : Nat
deriving Repr, DecidableEq

/-- `maxBits` computation at the top of `writePlan9Unsupported`: default 64,
`amd64`/`arm64` are 64-bit, `arm` is 32-bit. -/
def maxBitsFor (arch : String) : Nat :=
  match arch with
  | "amd64" => 64
  | "arm64" => 64
  | "arm" => 32
  | _ => 64

/-- The parallel `prefixes`/`lengths` arrays of `writePlan9Unsupported`.
Each Go format string `"QUAD $0x%02x…%02x; \t"` is represented by its
directive name paired with its byte length; rendering is done by
`directiveText`.  `maxBits` is always 64 or 32, so the final branch
(`nil` arrays in Go) is unreachable. -/
def formats (maxBits : Nat) : List (String × Nat) :=
  if maxBits = 64 then
    [("QUAD", 8), ("LONG", 4), ("WORD", 2), ("BYTE", 1)]
  else if maxBits = 32 then
    [("WORD", 4), ("BYTE", 1)]
  else []

/-- One level of the inner loop `for len(opcodes) >= byteLen` of
`writePlan9Unsupported`: splits `opcodes` into as many chunks of `byteLen`
bytes as possible, returning the chunks and the remainder.  `fuel` bounds the
number of loop iterations; each iteration consumes at least one byte, so
`fuel = opcodes.length` (as supplied by `takeChunks`) is always sufficient. -/
def takeChunksAux (byteLen : Nat) : Nat → List Nat → List (List Nat) × List Nat
  | 0, opcodes => ([], opcodes)
  | fuel + 1, opcodes =>
    if byteLen ≤ opcodes.length ∧ 0 < byteLen then
      let rest := takeChunksAux byteLen fuel (opcodes.drop byteLen)
      (opcodes.take byteLen :: rest.1, rest.2)
    else ([], opcodes)

def takeChunks (byteLen : Nat) (opcodes : List Nat) : List (List Nat) × List Nat :=
  takeChunksAux byteLen opcodes.length opcodes

/-- The nested loops of `writePlan9Unsupported`: for each directive width in
order, emit as many chunks of that width as fit, then move to the next width
with the remaining bytes.  When `reverseArgs` is set (64-bit target with a
little-endian instruction) each chunk is reversed before being rendered. -/
def packDirectives (reverseArgs : Bool) :
    List (String × Nat) → List Nat → List (String × List Nat)
  | [], _ => []
  | (name, byteLen) :: rest, opcodes =>
    let tc := takeChunks byteLen opcodes
    tc.1.map (fun c => (name, if reverseArgs then c.reverse else c))
      ++ packDirectives reverseArgs rest tc.2

/-- The directives emitted by `writePlan9Unsupported` for one instruction:
directive name together with the byte arguments substituted into its
format string, in emission order. -/
def unsupportedDirectives (arch : String) (instr : MachineInstruction) :
    List (String × List Nat) :=
  let maxBits := maxBitsFor arch
  let reverseArgs := maxBits == 64 && instr.BytesEndianness == ByteOrder.little
  packDirectives reverseArgs (formats maxBits) instr.Bytes

/-- Lowercase hex digit table, used to model `%x` formatting. -/
def hexDigit (n : Nat) : Char :=
  match n with
  | 0 => '0' | 1 => '1' | 2 => '2' | 3 => '3' | 4 => '4'
  | 5 => '5' | 6 => '6' | 7 => '7' | 8 => '8' | 9 => '9'
  | 10 => 'a' | 11 => 'b' | 12 => 'c' | 13 => 'd' | 14 => 'e' | 15 => 'f'
  | _ => '0'

/-- `%02x` applied to one byte value (0 ≤ b < 256): two lowercase hex digits. -/
def byteHex (b : Nat) : String :=
  ⟨[hexDigit (b / 16 % 16), hexDigit (b % 16)]⟩

/-- Text of one emitted directive, matching the Go format strings
`"QUAD $0x%02x%02x%02x%02x%02x%02x%02x%02x; \t"` etc. -/
def directiveText (name : String) (args : List Nat) : String :=
  name ++ " $0x" ++ String.join (args.map byteHex) ++ "; \t"

/-- `writePlan9Unsupported`: the text written to the output writer.  The Go
function always returns a nil error. -/
def writePlan9Unsupported (arch : String) (instr : MachineInstruction) : String :=
  String.join ((unsupportedDirectives arch instr).map (fun d => directiveText d.1 d.2))

/-- The `unrecognizedInstr` error format string of assembler.go. -/
def unrecognizedInstrMsg (command : String) : String :=
  "instruction " ++ command ++ " not supported in plan9"

/-- The `unsupportedArch` error format string of assembler.go. -/
def unsupportedArchMsg (arch : String) : String :=
  "architecture " ++ arch ++ " not supported"

/-- `errIsUnsupported`: Go compares the error's string against the two
formatted messages. -/
def errIsUnsupported (instr : MachineInstruction) (arch : String) (err : String) : Bool :=
  err == unrecognizedInstrMsg instr.Command || err == unsupportedArchMsg arch

/-- Abstraction of the external `golang.org/x/arch/arm/armasm` library
(`armasm.Decode` in `ModeARM` followed by `armasm.GoSyntax` at the
instruction's address).  `none` models a decode error; `some s` the rendered
Go-syntax text.  The library is not part of this repository, so the encoder
theorems are proved for every oracle. -/
def ArmDecodeOracle : Type := List Nat → Nat → Option String

/-- A concrete oracle on which every decode fails (used to instantiate closed
statements). -/
def failingOracle : ArmDecodeOracle := fun _ _ => Option.none

/-- `writePlan9Supported`.  Returns the text written, the returned error (if
any), and the contents of the caller's `Bytes` backing array after the call:
for `"arm"` the Go code runs `reverseEndianness(instr.Bytes)` on a slice
header sharing the caller's backing array, so the caller's byte sequence is
reversed in place regardless of whether the decode succeeds. -/
def writePlan9Supported (dec : ArmDecodeOracle) (arch : String)
    (instr : MachineInstruction) : String × Option String × List Nat :=
  match arch with
  | "arm" =>
    let instrBytes := instr.Bytes.reverse
    match dec instrBytes instr.Address with
    | Option.none => ("", some (unrecognizedInstrMsg instr.Command), instrBytes)
    | some goSyntax => (goSyntax ++ " \t", Option.none, instrBytes)
  | _ => ("", some (unsupportedArchMsg arch), instr.Bytes)

/-- The trailing comment written by `WriteOutput`: `"// %s\t"` with the
command, one `"%s\t"` per argument, then a newline. -/
def instrComment (instr : MachineInstruction) : String :=
  "// " ++ instr.Command ++ "\t" ++ String.join (instr.Arguments.map (fun a => a ++ "\t")) ++ "\n"

/-- `WriteOutput`: returns the full text written for the instruction, the
returned error (if any), and the contents of the caller's `Bytes` backing
array after the call.  Mirrors the `switch`: with `tryTranslate` set it runs
`writePlan9Supported` and on an "unsupported" error falls through to
`writePlan9Unsupported` (which then reads the possibly mutated bytes);
without it, it goes straight to `writePlan9Unsupported`. -/
def writeOutput (dec : ArmDecodeOracle) (arch : String) (tryTranslate : Bool)
    (instr : MachineInstruction) : String × Option String × List Nat :=
  if tryTranslate then
    match writePlan9Supported dec arch instr with
    | (t, Option.none, bs) =>
      ("    " ++ t ++ instrComment instr, Option.none, bs)
    | (t, some err, bs) =>
      if errIsUnsupported instr arch err then
        ("    " ++ t ++ writePlan9Unsupported arch { instr with Bytes := bs }
           ++ instrComment instr, Option.none, bs)
      else
        ("    " ++ t, some err, bs)
  else
    ("    " ++ writePlan9Unsupported arch instr ++ instrComment instr,
      Option.none, instr.Bytes)

/-- The per-instruction loop of `generatePlan9Assembly` (lines 577–583): write
each instruction's output in list order, aborting on the first error. -/
def writeInstructionsLoop (dec : ArmDecodeOracle) (arch : String) (trySupported : Bool) :
    List MachineInstruction → Except String String
  | [] => .ok ""
  | instr :: rest =>
    match writeOutput dec arch trySupported instr with
    | (_, some err, _) => .error err
    | (t, Option.none, _) =>
      (writeInstructionsLoop dec arch trySupported rest).map (fun s => t ++ s)

/-- The instruction-emission part of `generatePlan9Assembly` for one symbol:
computes `trySupportedTranslation` (disabled only for `arm64`), writes every
instruction in order, then appends the unconditional trailing `RET`. -/
def generateFunctionBody (dec : ArmDecodeOracle) (arch : String)
    (instrs : List MachineInstruction) : Except String String :=
  let trySupportedTranslation := if arch == "arm64" then false else true
  (writeInstructionsLoop dec arch trySupportedTranslation instrs).map
    (fun s => s ++ "    RET\n")

/-! ## The GNU assembler implementation (symbol table decoder and instruction
stream extractor)

The GNU implementation bundled with this snapshot builds the earlier
revision's `MachineInstruction`, whose `Address` is the address string as
matched and which has no endianness field. -/

/-- `MachineInstruction` of the earlier assembler.go revision, as constructed
by the GNU `ProcessMachineCodeToInstructions`. -/
structure MachineInstruction0 where
  RawInstruction : String
  InstructionString : String
  Bytes : List Nat
  Command : String
  Arguments : List String
  LineNumber : Nat
  Comment : String
  Address : String
deriving Repr, DecidableEq

/-- `Symbol` of assembler.go (field names as in the Go struct). -/
structure Symbol where
  Global : Bool
  UniqueGlobal : Bool
  Local : Bool
  Weak : Bool
  Constructor : Bool
  Warning : Bool
  IndirectReference : Bool
  RelocationProcessingFunction : Bool
  Debugging : Bool
  Dynamic : Bool
  Function : Bool
  File : Bool
  Object : Bool
  Name : String
  Section : String
  AlignmentSizeField : Nat
  ValueAddressField : Nat
deriving Repr, DecidableEq

/-- The zero value of `Symbol` (`var sym assembler.Symbol` in
`processObjdumpTable`). -/
def zeroSymbol : Symbol :=
  { Global := false, UniqueGlobal := false, Local := false, Weak := false,
    Constructor := false, Warning := false, IndirectReference := false,
    RelocationProcessingFunction := false, Debugging := false, Dynamic := false,
    Function := false, File := false, Object := false,
    Name := "", Section := "", AlignmentSizeField := 0, ValueAddressField := 0 }

/-- The `switch flagString[0]` of `parseFlagString`. -/
def flagPos0 (sym : Symbol) (c : Char) : GoResult Symbol :=
  if c = 'l' then .ok { sym with Local := true }
  else if c = 'g' then .ok { sym with Global := true }
  else if c = 'u' then .ok { sym with UniqueGlobal := true }
  else if c = '!' then .ok { sym with Global := true, Local := true }
  else if c = ' ' then .ok sym
  else .error ("invalid flag at position 0 : " ++ String.mk [c])

/-- The `switch flagString[1]` of `parseFlagString`. -/
def flagPos1 (sym : Symbol) (c : Char) : GoResult Symbol :=
  if c = 'w' then .ok { sym with Weak := true }
  else if c = ' ' then .ok sym
  else .error ("invalid flag at position 1 : " ++ String.mk [c])

/-- The `switch flagString[2]` of `parseFlagString`. -/
def flagPos2 (sym : Symbol) (c : Char) : GoResult Symbol :=
  if c = 'C' then .ok { sym with Constructor := true }
  else if c = ' ' then .ok sym
  else .error ("invalid flag at position 2 : " ++ String.mk [c])

/-- The `switch flagString[3]` of `parseFlagString`. -/
def flagPos3 (sym : Symbol) (c : Char) : GoResult Symbol :=
  if c = 'W' then .ok { sym with Warning := true }
  else if c = ' ' then .ok sym
  else .error ("invalid flag at position 3 : " ++ String.mk [c])

/-- The `switch flagString[4]` of `parseFlagString`. -/
def flagPos4 (sym : Symbol) (c : Char) : GoResult Symbol :=
  if c = 'I' then .ok { sym with IndirectReference := true }
  else if c = 'i' then .ok { sym with RelocationProcessingFunction := true }
  else if c = ' ' then .ok sym
  else .error ("invalid flag at position 4 : " ++ String.mk [c])

/-- The `switch flagString[5]` of `parseFlagString`. -/
def flagPos5 (sym : Symbol) (c : Char) : GoResult Symbol :=
  if c = 'd' then .ok { sym with Debugging := true }
  else if c = 'D' then .ok { sym with Dynamic := true }
  else if c = ' ' then .ok sym
  else .error ("invalid flag at position 5 : " ++ String.mk [c])

/-- The `switch flagString[6]` of `parseFlagString`. -/
def flagPos6 (sym : Symbol) (c : Char) : GoResult Symbol :=
  if c = 'F' then .ok { sym with Function := true }
  else if c = 'f' then .ok { sym with File := true }
  else if c = 'O' then .ok { sym with Object := true }
  else if c = ' ' then .ok sym
  else .error ("invalid flag at position 6 : " ++ String.mk [c])

/-- `parseFlagString`: decodes the 7-character flag column onto `sym`.  An
empty string is rejected up front; the seven switches then run in order,
each either updating the symbol, skipping on `' '`, or returning an error.
A string of length 1–6 would make the Go code index out of range (a panic);
characters past position 6 are ignored (callers always pass exactly 7). -/
def parseFlagString (sym : Symbol) (flagString : List Char) : GoResult Symbol :=
  match flagString with
  | [] => .error "invalid arguments"
  | c0 :: c1 :: c2 :: c3 :: c4 :: c5 :: c6 :: _ =>
    (flagPos0 sym c0).bind fun s0 =>
    (flagPos1 s0 c1).bind fun s1 =>
    (flagPos2 s1 c2).bind fun s2 =>
    (flagPos3 s2 c3).bind fun s3 =>
    (flagPos4 s3 c4).bind fun s4 =>
    (flagPos5 s4 c5).bind fun s5 =>
    flagPos6 s5 c6
  | _ => .panicked "index out of range"

/-- `\s` of Go's regexp package: `[\t\n\f\r ]`. -/
def isGoRegexSpace (c : Char) : Bool :=
  c = '\t' || c = '\n' || c = '\x0c' || c = '\r' || c = ' '

/-- Lowercase hex digit, the class `[0-9a-f]` of the extraction regexes. -/
def isHexDigitLower (c : Char) : Bool :=
  ('0' ≤ c && c ≤ '9') || ('a' ≤ c && c ≤ 'f')

/-- `unicode.IsSpace` restricted to the characters that can actually occur in
the matched byte column (`[0-9a-f ]`), used by `deleteSpace`/`strings.Map`. -/
def unicodeIsSpace (c : Char) : Bool :=
  c = ' ' || c = '\t' || c = '\n' || c = '\x0b' || c = '\x0c' || c = '\r'

/-- `strings.Map(deleteSpace, s)`: drop all whitespace characters. -/
def stripSpaces (s : List Char) : List Char :=
  s.filter (fun c => !unicodeIsSpace c)

/-- `strings.TrimSpace`. -/
def trimSpace (s : List Char) : List Char :=
  ((s.dropWhile unicodeIsSpace).reverse.dropWhile unicodeIsSpace).reverse

/-- Does `pat` occur as an initial segment of `s`? -/
def listStartsWith : List Char → List Char → Bool
  | [], _ => true
  | _ :: _, [] => false
  | p :: ps, c :: cs => p = c && listStartsWith ps cs

/-- The tail of `(?:\s*)([0-9a-f ]+)\t(.+)$` in `instructionRegex`, with Go's
leftmost-first (backtracking) semantics over the length of the `\s*` run:
the longest whitespace prefix is tried first; for a fixed prefix the byte
field `[0-9a-f ]+` is maximal (its characters can never be the following
`\t`), and the final `(.+)` must be non-empty.  `w` is the length of the
`\s*` run currently being tried. -/
def attemptBytesField (s : List Char) (w : Nat) : Option (List Char × List Char) :=
  let t := s.drop w
  let field := t.takeWhile (fun c => isHexDigitLower c || c = ' ')
  match t.drop field.length with
  | '\t' :: tail =>
    if field.isEmpty || tail.isEmpty then Option.none else some (field, tail)
  | _ => Option.none

def matchBytesFieldAux (s : List Char) : Nat → Option (List Char × List Char)
  | 0 => attemptBytesField s 0
  | w + 1 =>
    match attemptBytesField s (w + 1) with
    | some r => some r
    | Option.none => matchBytesFieldAux s w

def matchBytesField (s : List Char) : Option (List Char × List Char) :=
  matchBytesFieldAux s (s.takeWhile isGoRegexSpace).length

/-- `instructionRegex`: `(?m)^(?:\s*)([0-9a-f]+):(?:\s*)([0-9a-f ]+)\t(.+)$`
applied to one line (the listing is split on newlines first, so `^`/`$`
anchor the whole line and at most one match exists).  Returns the three
submatches (address, byte field, instruction text) or `none`. -/
def matchInstructionLine (line : List Char) :
    Option (List Char × List Char × List Char) :=
  let afterWs := line.dropWhile isGoRegexSpace
  let addr := afterWs.takeWhile isHexDigitLower
  if addr.isEmpty then Option.none
  else
    match afterWs.drop addr.length with
    | ':' :: rest =>
      (matchBytesField rest).map (fun p => (addr, p.1, p.2))
    | _ => Option.none

/-- `hex.DecodeString` on a run of hex characters: fails on odd length (and on
a non-hex character, which cannot occur for strings produced by the byte
field).  Each produced byte value is < 256. -/
def hexVal (c : Char) : Option Nat :=
  if '0' ≤ c ∧ c ≤ '9' then some (c.toNat - 48)
  else if 'a' ≤ c ∧ c ≤ 'f' then some (c.toNat - 87)
  else if 'A' ≤ c ∧ c ≤ 'F' then some (c.toNat - 55)
  else Option.none

def hexDecodeChars : List Char → Option (List Nat)
  | [] => some []
  | c1 :: c2 :: rest =>
    match hexVal c1, hexVal c2, hexDecodeChars rest with
    | some hi, some lo, some bs => some ((16 * hi + lo) :: bs)
    | _, _, _ => Option.none
  | [_] => Option.none

/-- `strings.SplitN(s, ";", 2)`: text before the first `';'`, and the text
after it if one exists. -/
def splitFirstSemicolon : List Char → List Char × Option (List Char)
  | [] => ([], Option.none)
  | c :: rest =>
    if c = ';' then ([], some rest)
    else
      let r := splitFirstSemicolon rest
      (c :: r.1, r.2)

/-- The class `[a-zA-z0-9.]` of `opcodeArgsRegex`.  Note the Go source writes
`A-z`, a range that also covers the ASCII punctuation between `Z` and `a`. -/
def isOpcodeChar (c : Char) : Bool :=
  ('a' ≤ c && c ≤ 'z') || ('A' ≤ c && c ≤ 'z') || ('0' ≤ c && c ≤ '9') || c = '.'

/-- `opcodeArgsRegex`: `(?m)(^[a-zA-z0-9.]+)(?:\s*)(.*)$` applied to the
instruction text before the comment.  The opcode is the maximal run of class
characters from the start (the match fails when it is empty); the argument
group is the rest after the maximal whitespace run. -/
def matchOpcodeArgs (s : List Char) : Option (List Char × List Char) :=
  let opcode := s.takeWhile isOpcodeChar
  if opcode.isEmpty then Option.none
  else some (opcode, (s.drop opcode.length).dropWhile isGoRegexSpace)

/-- `strings.Split(s, ",")`: splitting the empty string yields `[""]`. -/
def splitCommas : List Char → List (List Char)
  | [] => [[]]
  | c :: rest =>
    match splitCommas rest with
    | g :: gs => if c = ',' then [] :: g :: gs else (c :: g) :: gs
    | [] => [[c]]

/-- Outcome of processing one line of a symbol's matched range. -/
inductive LineParse where
  | noMatch
  | failed (msg : String)
  | parsed (instr : MachineInstruction0)
deriving Repr, DecidableEq

/-- The body of the per-line loop of `ProcessMachineCodeToInstructions`
(lines 180–225): a line that does not match `instructionRegex` contributes
nothing; a matching line either parses into a `MachineInstruction0` or makes
the whole extraction fail (hex decode error, or no opcode match). -/
def parseInstructionLine (line : List Char) : LineParse :=
  match matchInstructionLine line with
  | Option.none => .noMatch
  | some (addr, bytesField, instrText) =>
    match hexDecodeChars (stripSpaces bytesField) with
    | Option.none => .failed "encoding/hex: odd length hex string"
    | some decodedBytes =>
      let split := splitFirstSemicolon instrText
      let commentString := match split.2 with
        | Option.none => []
        | some c => c
      match matchOpcodeArgs split.1 with
      | Option.none => .failed ("error: invalid instruction format: " ++ String.mk line)
      | some (opcode, argsText) =>
        .parsed
          { Address := String.mk addr,
            Bytes := decodedBytes,
            RawInstruction := String.mk instrText,
            InstructionString := String.mk split.1,
            Comment := String.mk (trimSpace commentString),
            Command := String.mk opcode,
            Arguments := (splitCommas argsText).map (fun a => String.mk (trimSpace a)),
            LineNumber := 0 }

/-- The parsing loop over the lines of one symbol's matched range: skipped
lines contribute nothing, parsed lines are appended in order, and a failing
line aborts the whole extraction with its error. -/
def processRange : List (List Char) → GoResult (List MachineInstruction0)
  | [] => .ok []
  | line :: rest =>
    match parseInstructionLine line with
    | .noMatch => processRange rest
    | .failed msg => .error msg
    | .parsed instr => (processRange rest).map (fun l => instr :: l)

/-- `symbolStartRegex`: `(?m)^[0-9a-f]+ <NAME>:` tested against one line — a
non-empty hex run at the start of the line followed by the literal
`" <NAME>:"`. -/
def startMatches (sym : String) (line : List Char) : Bool :=
  let hexRun := line.takeWhile isHexDigitLower
  !hexRun.isEmpty &&
    listStartsWith ((" <" ++ sym ++ ">:").toList) (line.drop hexRun.length)

/-- `symbolEndRegex`: `(?m)(^((\t\.\.\.)|[ \t]*)$)|(^$)` tested against one
line — the literal `"\t..."` or a line consisting only of spaces and tabs
(including the empty line). -/
def endMatches (line : List Char) : Bool :=
  line == ['\t', '.', '.', '.'] || line.all (fun c => c = ' ' || c = '\t')

/-- The start/end indices computed for one symbol by the scanning loops of
`ProcessMachineCodeToInstructions` (lines 150–170).  Both variables start at
0 and are only assigned when the corresponding regex matches. -/
def symbolRange (sym : String) (lines : List (List Char)) : Nat × Nat :=
  match lines.findIdx? (startMatches sym) with
  | Option.none => (0, 0)
  | some start =>
    match (lines.drop start).findIdx? endMatches with
    | Option.none => (start, 0)
    | some idx2 => (start, idx2 + start)

/-- Go slice expression `ls[lo:hi]`: panics unless `lo ≤ hi ≤ len(ls)`. -/
def goSlice {α : Type} (ls : List α) (lo hi : Nat) : GoResult (List α) :=
  if lo ≤ hi ∧ hi ≤ ls.length then .ok ((ls.take hi).drop lo)
  else .panicked "slice bounds out of range"

/-- The first phase of `ProcessMachineCodeToInstructions`: for each requested
symbol, find its range and slice out `lines[start+1:end]`.  The map iteration
`for sym := range syms` is modelled by processing the requested names in list
order. -/
def collectRanges (lines : List (List Char)) :
    List String → GoResult (List (String × List (List Char)))
  | [] => .ok []
  | sym :: rest =>
    let r := symbolRange sym lines
    (goSlice lines (r.1 + 1) r.2).bind fun seg =>
      (collectRanges lines rest).map (fun l => (sym, seg) :: l)

/-- The second phase: parse every extracted range. -/
def parseRanges :
    List (String × List (List Char)) → GoResult (List (String × List MachineInstruction0))
  | [] => .ok []
  | (sym, seg) :: rest =>
    (processRange seg).bind fun instrs =>
      (parseRanges rest).map (fun l => (sym, instrs) :: l)

/-- `ProcessMachineCodeToInstructions` with the objdump output already split
into lines: find each requested symbol's range, then parse each range. -/
def processMachineCodeToInstructions (lines : List (List Char))
    (symNames : List String) : GoResult (List (String × List MachineInstruction0)) :=
  (collectRanges lines symNames).bind parseRanges

/-! ## Derived definitions used by the statements and proofs -/

/-- The bytes left unconsumed after all directive widths have been processed
(the value of `opcodes` when the outer loop of `writePlan9Unsupported`
finishes). -/
def packLeftover : List (String × Nat) → List Nat → List Nat
  | [], opcodes => opcodes
  | (_, byteLen) :: rest, opcodes => packLeftover rest (takeChunks byteLen opcodes).2

/-- The closed character alphabets of the seven flag positions (the non-default
cases of the switches in `parseFlagString`). -/
def legalFlag0 (c : Char) : Prop := c = 'l' ∨ c = 'g' ∨ c = 'u' ∨ c = '!' ∨ c = ' '

def legalFlag1 (c : Char) : Prop := c = 'w' ∨ c = ' '

def legalFlag2 (c : Char) : Prop := c = 'C' ∨ c = ' '

def legalFlag3 (c : Char) : Prop := c = 'W' ∨ c = ' '

def legalFlag4 (c : Char) : Prop := c = 'I' ∨ c = 'i' ∨ c = ' '

def legalFlag5 (c : Char) : Prop := c = 'd' ∨ c = 'D' ∨ c = ' '

def legalFlag6 (c : Char) : Prop := c = 'F' ∨ c = 'f' ∨ c = 'O' ∨ c = ' '

instance (c : Char) : Decidable (legalFlag0 c) := by unfold legalFlag0; infer_instance

instance (c : Char) : Decidable (legalFlag1 c) := by unfold legalFlag1; infer_instance

instance (c : Char) : Decidable (legalFlag2 c) := by unfold legalFlag2; infer_instance

instance (c : Char) : Decidable (legalFlag3 c) := by unfold legalFlag3; infer_instance

instance (c : Char) : Decidable (legalFlag4 c) := by unfold legalFlag4; infer_instance

instance (c : Char) : Decidable (legalFlag5 c) := by unfold legalFlag5; infer_instance

instance (c : Char) : Decidable (legalFlag6 c) := by unfold legalFlag6; infer_instance

/-- How many of the classification flags decoded from flag position 0
(`Local`, `Global`, `UniqueGlobal`) are set. -/
def pos0FlagCount (s : Symbol) : Nat :=
  (if s.Local then 1 else 0) + (if s.Global then 1 else 0) + (if s.UniqueGlobal then 1 else 0)

/-- Flags of position 1 (`Weak`). -/
def pos1FlagCount (s : Symbol) : Nat := if s.Weak then 1 else 0

/-- Flags of position 2 (`Constructor`). -/
def pos2FlagCount (s : Symbol) : Nat := if s.Constructor then 1 else 0

/-- Flags of position 3 (`Warning`). -/
def pos3FlagCount (s : Symbol) : Nat := if s.Warning then 1 else 0

/-- Flags of position 4 (`IndirectReference`, `RelocationProcessingFunction`). -/
def pos4FlagCount (s : Symbol) : Nat :=
  (if s.IndirectReference then 1 else 0) + (if s.RelocationProcessingFunction then 1 else 0)

/-- Flags of position 5 (`Debugging`, `Dynamic`). -/
def pos5FlagCount (s : Symbol) : Nat :=
  (if s.Debugging then 1 else 0) + (if s.Dynamic then 1 else 0)

/-- Flags of position 6 (`Function`, `File`, `Object`). -/
def pos6FlagCount (s : Symbol) : Nat :=
  (if s.Function then 1 else 0) + (if s.File then 1 else 0) + (if s.Object then 1 else 0)

/-! ## Concrete instructions and listings used in closed statements -/

/-- The `mov r2, lr` instruction of the spec's endianness example, with its
bytes in disassembler order and a little-endian `BytesEndianness`. -/
def sampleLittleEndianInstr : MachineInstruction :=
  { RawInstruction := "mov r2, lr", InstructionString := "mov r2, lr",
    Bytes := [0x0e, 0x20, 0xa0, 0xe1], BytesEndianness := .little,
    Command := "mov", Arguments := ["r2", "lr"], LineNumber := 0,
    Comment := "", Address := 0 }

/-- The same bytes with the `BytesEndianness` field left at its zero value
(`nil`), as produced by every `MachineInstruction` constructor in this
repository. -/
def sampleUnsetEndianInstr : MachineInstruction :=
  { sampleLittleEndianInstr with BytesEndianness := .none }

/-- The `vld1.64` instruction of the repository's own encoder test
(`TestInstructionFormatHex`, bytes `f42007dd`). -/
def vldInstr : MachineInstruction :=
  { RawInstruction := "vld1.64 {d0}, [r0 :64]! ",
    InstructionString := "vld1.64 {d0}, [r0 :64]! ",
    Bytes := [0xf4, 0x20, 0x07, 0xdd], BytesEndianness := .none,
    Command := "vld1.64", Arguments := ["{d0}", "[r0 :64]! "], LineNumber := 0,
    Comment := "", Address := 0 }

/-- A one-byte instruction used to exercise the encoder on an unrecognized
architecture tag. -/
def bogusInstr : MachineInstruction :=
  { RawInstruction := "foo", InstructionString := "foo",
    Bytes := [0x01], BytesEndianness := .none,
    Command := "foo", Arguments := [], LineNumber := 0,
    Comment := "", Address := 0 }

/-- A line inside a matched disassembly range that does not match the
instruction-line grammar (as `objdump -S` interleaves source text). -/
def demoGarbageLine : List Char := "some random text".toList

/-- A three-line range whose middle line is not parseable as an instruction. -/
def demoRangeLines : List (List Char) :=
  ["   0:\te1a0200e \tmov r2, lr".toList,
   demoGarbageLine,
   "   4:\te1a0300d \tmov r3, sp".toList]

/-- The instruction parsed from the first line of `demoRangeLines`. -/
def demoInstr1 : MachineInstruction0 :=
  { Address := "0", Bytes := [0xe1, 0xa0, 0x20, 0x0e],
    RawInstruction := "mov r2, lr", InstructionString := "mov r2, lr",
    Comment := "", Command := "mov", Arguments := ["r2", "lr"], LineNumber := 0 }

/-- The instruction parsed from the third line of `demoRangeLines`. -/
def demoInstr2 : MachineInstruction0 :=
  { Address := "4", Bytes := [0xe1, 0xa0, 0x30, 0x0d],
    RawInstruction := "mov r3, sp", InstructionString := "mov r3, sp",
    Comment := "", Command := "mov", Arguments := ["r3", "sp"], LineNumber := 0 }

/-- A line that matches the instruction-line grammar but whose byte column has
an odd number of hex digits, so `hex.DecodeString` fails. -/
def demoBadHexLine : List Char := "   0:\tabc \tfoo".toList

/-! ## Byte-packing lemmas -/

theorem takeChunksAux_sum (byteLen : Nat) (hl : 0 < byteLen) :
    ∀ (fuel : Nat) (bs : List Nat), bs.length ≤ fuel →
      ((((takeChunksAux byteLen fuel bs).1.map List.length).sum
          + (takeChunksAux byteLen fuel bs).2.length = bs.length)
        ∧ (takeChunksAux byteLen fuel bs).2.length < byteLen) := by
  intro fuel
  induction fuel with
  | zero =>
    intro bs hbs
    have hnil : bs = [] := List.length_eq_zero.mp (Nat.le_zero.mp hbs)
    subst hnil
    simp [takeChunksAux, hl]
  | succ f ih =>
    intro bs hbs
    by_cases h : byteLen ≤ bs.length ∧ 0 < byteLen
    · have hdrop : (bs.drop byteLen).length ≤ f := by
        simp only [List.length_drop]
        omega
      have hrec := ih (bs.drop byteLen) hdrop
      have hdlen : (bs.drop byteLen).length = bs.length - byteLen := by
        simp
      have htake : (bs.take byteLen).length = byteLen := by
        simp only [List.length_take]
        omega
      simp only [takeChunksAux, if_pos h, List.map_cons, List.sum_cons]
      rw [hdlen] at hrec
      constructor
      · rw [htake]
        omega
      · exact hrec.2
    · have hlt : bs.length < byteLen := by
        rcases Nat.lt_or_ge bs.length byteLen with h' | h'
        · exact h'
        · exact absurd ⟨h', hl⟩ h
      simp [takeChunksAux, if_neg h, hlt]

theorem takeChunks_sum (byteLen : Nat) (hl : 0 < byteLen) (bs : List Nat) :
    ((((takeChunks byteLen bs).1.map List.length).sum
        + (takeChunks byteLen bs).2.length = bs.length)
      ∧ (takeChunks byteLen bs).2.length < byteLen) :=
  takeChunksAux_sum byteLen hl bs.length bs (Nat.le_refl _)

theorem takeChunks_one_rem (bs : List Nat) : (takeChunks 1 bs).2 = [] := by
  have h := (takeChunks_sum 1 (by omega) bs).2
  exact List.length_eq_zero.mp (by omega)

theorem packDirectives_sum (rev : Bool) :
    ∀ (fmts : List (String × Nat)) (bs : List Nat), (∀ p ∈ fmts, 0 < p.2) →
      ((packDirectives rev fmts bs).map (fun d => d.2.length)).sum
        + (packLeftover fmts bs).length = bs.length := by
  intro fmts
  induction fmts with
  | nil =>
    intro bs _
    simp [packDirectives, packLeftover]
  | cons p rest ih =>
    intro bs hpos
    obtain ⟨name, byteLen⟩ := p
    have hl : 0 < byteLen := hpos (name, byteLen) (List.mem_cons_self _ _)
    have hrest := ih (takeChunks byteLen bs).2
      (fun q hq => hpos q (List.mem_cons_of_mem _ hq))
    have hchunks := (takeChunks_sum byteLen hl bs).1
    have hmap : ∀ chunks : List (List Nat),
        ((chunks.map (fun c => (name, if rev then c.reverse else c))).map
            (fun d => d.2.length)).sum
          = (chunks.map List.length).sum := by
      intro chunks
      induction chunks with
      | nil => simp
      | cons c cs ihc => cases rev <;> simp_all
    simp only [packDirectives, packLeftover, List.map_append, List.sum_append]
    rw [hmap]
    omega

theorem packLeftover_formats64 (bs : List Nat) : packLeftover (formats 64) bs = [] := by
  simp [formats, packLeftover, takeChunks_one_rem]

theorem packLeftover_formats32 (bs : List Nat) : packLeftover (formats 32) bs = [] := by
  simp [formats, packLeftover, takeChunks_one_rem]

theorem maxBitsFor_eq (arch : String) : maxBitsFor arch = 64 ∨ maxBitsFor arch = 32 := by
  unfold maxBitsFor
  split <;> simp

/-- C1: for every Instruction and for both width rules (32-bit widths {4,1}
and 64-bit widths {8,4,2,1}), the byte-packing fallback emits exactly
`len(instruction.Bytes)` bytes in total across all emitted literal-data
directives: the greedy largest-chunk-first loop consumes the whole byte
sequence with no bytes dropped or duplicated. -/
theorem pack_emits_exact_byte_count (arch : String) (instr : MachineInstruction) :
    ((unsupportedDirectives arch instr).map (fun d => d.2.length)).sum
      = instr.Bytes.length := by
  have h64 : ∀ p ∈ formats 64, 0 < p.2 := by decide
  have h32 : ∀ p ∈ formats 32, 0 < p.2 := by decide
  simp only [unsupportedDirectives]
  rcases maxBitsFor_eq arch with h | h <;> rw [h]
  · have := packDirectives_sum (64 == 64 && instr.BytesEndianness == ByteOrder.little)
      (formats 64) instr.Bytes h64
    rw [packLeftover_formats64] at this
    simpa using this
  · have := packDirectives_sum (32 == 64 && instr.BytesEndianness == ByteOrder.little)
      (formats 32) instr.Bytes h32
    rw [packLeftover_formats32] at this
    simpa using this

theorem packDirectives_reverse_eq (rev : Bool) :
    ∀ (fmts : List (String × Nat)) (bs : List Nat),
      packDirectives rev fmts bs
        = (packDirectives false fmts bs).map
            (fun d => (d.1, if rev then d.2.reverse else d.2)) := by
  intro fmts
  induction fmts with
  | nil =>
    intro bs
    simp [packDirectives]
  | cons p rest ih =>
    intro bs
    obtain ⟨name, byteLen⟩ := p
    simp only [packDirectives, List.map_append, List.map_map]
    rw [ih]
    rfl

/-- C2 counterexample: an Instruction whose `BytesEndianness` is not
little-endian (here the field's zero value, which is what every constructor in
this repository leaves it at) is packed on the 64-bit `arm64` target without
any chunk reversal, so the claim's required literal `0xe1a0200e` is not
produced for the bytes `[0x0e,0x20,0xa0,0xe1]`. -/
theorem pack_unset_endianness_not_reversed :
    unsupportedDirectives "arm64" sampleUnsetEndianInstr
        = [("LONG", [0x0e, 0x20, 0xa0, 0xe1])]
      ∧ writePlan9Unsupported "arm64" sampleUnsetEndianInstr = "LONG $0x0e20a0e1; \t"
      ∧ writePlan9Unsupported "arm64" sampleUnsetEndianInstr ≠ "LONG $0xe1a0200e; \t" := by
  refine ⟨by decide, by decide, by decide⟩

/-- C2 (amended): the byte-packing fallback reverses each chunk exactly when
the target word width is 64 bits AND the instruction's `BytesEndianness` is
`binary.LittleEndian`; on 32-bit targets (and for instructions without a
little-endian marking) chunks are emitted in disassembler order.  For a
little-endian instruction the spec's concrete example holds: bytes
`[0x0e,0x20,0xa0,0xe1]` render as literal `0xe1a0200e` on a 64-bit target and
as `0x0e20a0e1` on a 32-bit target. -/
theorem pack_reversal_iff_little_endian :
    (∀ (arch : String) (instr : MachineInstruction),
        unsupportedDirectives arch instr
          = (packDirectives false (formats (maxBitsFor arch)) instr.Bytes).map
              (fun d => (d.1,
                if maxBitsFor arch == 64 && instr.BytesEndianness == ByteOrder.little
                then d.2.reverse else d.2)))
      ∧ writePlan9Unsupported "arm64" sampleLittleEndianInstr = "LONG $0xe1a0200e; \t"
      ∧ writePlan9Unsupported "arm" sampleLittleEndianInstr = "WORD $0x0e20a0e1; \t" := by
  refine ⟨fun arch instr => ?_, by decide, by decide⟩
  simp only [unsupportedDirectives]
  exact packDirectives_reverse_eq _ _ _

/-! ## Encoder state and error lemmas -/

theorem writePlan9Supported_bytes (dec : ArmDecodeOracle) (arch : String)
    (instr : MachineInstruction) :
    (writePlan9Supported dec arch instr).2.2
      = if arch == "arm" then instr.Bytes.reverse else instr.Bytes := by
  by_cases h : arch = "arm"
  · subst h
    simp only [writePlan9Supported]
    cases dec instr.Bytes.reverse instr.Address <;> simp
  · have hb : (arch == "arm") = false := by
      simp [h]
    unfold writePlan9Supported
    split
    · simp_all
    · simp [hb]

theorem writeOutput_bytesAfter (dec : ArmDecodeOracle) (arch : String)
    (tryTranslate : Bool) (instr : MachineInstruction) :
    (writeOutput dec arch tryTranslate instr).2.2
      = if tryTranslate && arch == "arm" then instr.Bytes.reverse else instr.Bytes := by
  cases tryTranslate with
  | false => simp [writeOutput]
  | true =>
    have hb := writePlan9Supported_bytes dec arch instr
    unfold writeOutput
    rcases h : writePlan9Supported dec arch instr with ⟨t, e, bs⟩
    rw [h] at hb
    simp only at hb
    cases e with
    | none => simpa using hb
    | some err =>
      simp only [Bool.true_and, if_true]
      split <;> simpa using hb

/-- C5: the claim that `WriteOutput` leaves the Instruction's byte sequence
(and every other field) unchanged is violated by the code: for `arch = "arm"`
with native translation enabled, `writePlan9Supported` calls
`reverseEndianness` on a slice header aliasing the caller's backing array, so
the caller's `Bytes` are reversed in place (for every decode outcome;
a subsequent decode failure then byte-packs the reversed bytes).  On the
repository's own `vld1.64` test instruction the bytes become
`[0xdd,0x07,0x20,0xf4]`, no longer the original `[0xf4,0x20,0x07,0xdd]`. -/
theorem write_output_mutates_bytes_on_arm :
    (∀ (dec : ArmDecodeOracle) (arch : String) (tryTranslate : Bool)
        (instr : MachineInstruction),
        (writeOutput dec arch tryTranslate instr).2.2
          = if tryTranslate && arch == "arm" then instr.Bytes.reverse else instr.Bytes)
      ∧ (∀ dec : ArmDecodeOracle,
          (writeOutput dec "arm" true vldInstr).2.2 = [0xdd, 0x07, 0x20, 0xf4])
      ∧ vldInstr.Bytes = [0xf4, 0x20, 0x07, 0xdd]
      ∧ ([0xdd, 0x07, 0x20, 0xf4] : List Nat) ≠ vldInstr.Bytes := by
  refine ⟨writeOutput_bytesAfter, fun dec => ?_, by decide, by decide⟩
  rw [writeOutput_bytesAfter]
  decide

theorem writePlan9Supported_ne_arm (dec : ArmDecodeOracle) (arch : String)
    (instr : MachineInstruction) (h : arch ≠ "arm") :
    writePlan9Supported dec arch instr
      = ("", some (unsupportedArchMsg arch), instr.Bytes) := by
  unfold writePlan9Supported
  split
  · simp_all
  · rfl

/-- C7: for every architecture tag without a native decoder (every tag other
than `"arm"`), enabling the native-translation attempt produces the same
output, error, and final byte state as disabling it: `writePlan9Supported`
fails with the unsupported-architecture message, which `errIsUnsupported`
recognizes, and control falls through to the identical byte-packing path. -/
theorem fallback_identical_without_native_decoder (dec : ArmDecodeOracle)
    (arch : String) (instr : MachineInstruction) (h : arch ≠ "arm") :
    writeOutput dec arch true instr = writeOutput dec arch false instr := by
  unfold writeOutput
  rw [writePlan9Supported_ne_arm dec arch instr h]
  have he : errIsUnsupported instr arch (unsupportedArchMsg arch) = true := by
    simp [errIsUnsupported]
  simp [he]

/-- Witness for C7 at the concrete tag `"mips"` (no native decoder). -/
theorem fallback_identical_without_native_decoder_witness :
    writeOutput failingOracle "mips" true sampleUnsetEndianInstr
      = writeOutput failingOracle "mips" false sampleUnsetEndianInstr :=
  fallback_identical_without_native_decoder failingOracle "mips"
    sampleUnsetEndianInstr (by decide)

theorem writePlan9Supported_err_unsupported (dec : ArmDecodeOracle) (arch : String)
    (instr : MachineInstruction) (e : String)
    (h : (writePlan9Supported dec arch instr).2.1 = some e) :
    errIsUnsupported instr arch e = true := by
  by_cases harm : arch = "arm"
  · subst harm
    simp only [writePlan9Supported] at h
    cases hd : dec instr.Bytes.reverse instr.Address <;> rw [hd] at h <;> simp at h
    subst h
    simp [errIsUnsupported]
  · rw [writePlan9Supported_ne_arm dec arch instr harm] at h
    simp at h
    subst h
    simp [errIsUnsupported]

theorem writeOutput_no_error (dec : ArmDecodeOracle) (arch : String)
    (tryTranslate : Bool) (instr : MachineInstruction) :
    (writeOutput dec arch tryTranslate instr).2.1 = Option.none := by
  cases tryTranslate with
  | false => simp [writeOutput]
  | true =>
    unfold writeOutput
    rcases h : writePlan9Supported dec arch instr with ⟨t, e, bs⟩
    cases e with
    | none => simp
    | some err =>
      have hu : errIsUnsupported instr arch err = true :=
        writePlan9Supported_err_unsupported dec arch instr err (by rw [h])
      simp [hu]

theorem writeInstructionsLoop_ok (dec : ArmDecodeOracle) (arch : String)
    (trySupported : Bool) :
    ∀ instrs : List MachineInstruction,
      writeInstructionsLoop dec arch trySupported instrs
        = .ok ((instrs.map (fun i => (writeOutput dec arch trySupported i).1)).foldr
            (· ++ ·) "") := by
  intro instrs
  induction instrs with
  | nil => rfl
  | cons i rest ih =>
    unfold writeInstructionsLoop
    rcases h : writeOutput dec arch trySupported i with ⟨t, e, bs⟩
    have hne := writeOutput_no_error dec arch trySupported i
    rw [h] at hne
    simp only at hne
    subst hne
    simp [ih, h, Except.map]

/-- C8: for every function block of N instructions (N ≥ 0), the emitted output
is exactly the concatenation, in list (disassembly) order, of each
instruction's own encoder output, followed by the unconditional trailing
`RET`; the per-instruction loop never fails and never reorders. -/
theorem generate_output_preserves_order (dec : ArmDecodeOracle) (arch : String)
    (instrs : List MachineInstruction) :
    generateFunctionBody dec arch instrs
      = .ok (((instrs.map (fun i =>
            (writeOutput dec arch (if arch == "arm64" then false else true) i).1)).foldr
              (· ++ ·) "") ++ "    RET\n") := by
  simp only [generateFunctionBody, writeInstructionsLoop_ok, Except.map]

/-- C9 counterexample: on the unrecognized architecture tag
`"not-a-real-arch"`, `WriteOutput` does not fail — it returns no error and
produces byte-packing directive text (using the 64-bit default width rules),
contradicting the claim that truly invalid tags make the Encoder fail with an
unsupported-architecture error. -/
theorem invalid_arch_tag_still_succeeds :
    (writeOutput failingOracle "not-a-real-arch" true bogusInstr).2.1 = Option.none
      ∧ (writeOutput failingOracle "not-a-real-arch" true bogusInstr).1
          = "    BYTE $0x01; \t// foo\t\n"
      ∧ (writeOutput failingOracle "not-a-real-arch" true bogusInstr).1 ≠ "" := by
  refine ⟨by decide, by decide, by decide⟩

/-- C9 (amended): `WriteOutput` never fails on the architecture tag: for every
tag (recognized or not) and both values of the native-translation flag it
returns no error; the internal unsupported-architecture error is swallowed by
`errIsUnsupported` as a fallback trigger, and every unrecognized tag is
treated as a 64-bit-word target by the byte-packing rules. -/
theorem write_output_never_fails :
    (∀ (dec : ArmDecodeOracle) (arch : String) (tryTranslate : Bool)
        (instr : MachineInstruction),
        (writeOutput dec arch tryTranslate instr).2.1 = Option.none)
      ∧ (∀ arch : String, arch ≠ "amd64" → arch ≠ "arm64" → arch ≠ "arm" →
          maxBitsFor arch = 64) := by
  refine ⟨writeOutput_no_error, fun arch h1 h2 h3 => ?_⟩
  unfold maxBitsFor
  split <;> simp_all

/-- Witness for C9 at the concrete unrecognized tag `"zzz"`. -/
theorem write_output_never_fails_witness :
    (writeOutput failingOracle "zzz" true bogusInstr).2.1 = Option.none
      ∧ maxBitsFor "zzz" = 64 :=
  ⟨write_output_never_fails.1 failingOracle "zzz" true bogusInstr,
   write_output_never_fails.2 "zzz" (by decide) (by decide) (by decide)⟩

/-- C4: the claim (and the spec) require a `SymbolNotFound` error when a
requested symbol has no disassembly block, but the code never assigns
`start`/`end` in that case and evaluates the slice `lines[1:0]`, a run-time
panic.  Evaluated here on a one-line listing without a block for `Add2`. -/
theorem missing_symbol_slice_panic :
    processMachineCodeToInstructions ["some line".toList] ["Add2"]
      = .panicked "slice bounds out of range" := by
  decide


theorem parseInstructionLine_noMatch_iff (line : List Char) :
    parseInstructionLine line = .noMatch ↔ matchInstructionLine line = Option.none := by
  unfold parseInstructionLine
  rcases hm : matchInstructionLine line with _ | ⟨addr, bf, it⟩
  · simp [hm]
  · simp only [hm]
    refine iff_of_false ?_ (by simp)
    rcases h1 : hexDecodeChars (stripSpaces bf) with _ | bs
    · simp [h1]
    · rcases h2 : matchOpcodeArgs (splitFirstSemicolon it).1 with _ | ⟨op, argsText⟩
      · simp [h1, h2]
      · simp [h1, h2]

theorem processRange_ok_count :
    ∀ (lines : List (List Char)) (instrs : List MachineInstruction0),
      processRange lines = .ok instrs →
      instrs.length = lines.countP (fun l => (matchInstructionLine l).isSome) := by
  intro lines
  induction lines with
  | nil =>
    intro instrs h
    simp only [processRange] at h
    cases h
    simp
  | cons l rest ih =>
    intro instrs h
    unfold processRange at h
    rcases hp : parseInstructionLine l with _ | msg | i <;> rw [hp] at h
    · have hm : matchInstructionLine l = Option.none :=
        (parseInstructionLine_noMatch_iff l).mp hp
      rw [List.countP_cons]
      simp [hm]
      exact ih instrs h
    · cases h
    · have hs : (matchInstructionLine l).isSome = true := by
        rcases hmm : matchInstructionLine l with _ | x
        · rw [(parseInstructionLine_noMatch_iff l).mpr hmm] at hp
          cases hp
        · simp
      rcases hr : processRange rest with l2 | m | m <;> rw [hr] at h <;>
        simp [GoResult.map] at h
      subst h
      rw [List.countP_cons]
      simp [hs, ih l2 hr]

theorem processRange_error_of_failed :
    ∀ (lines : List (List Char)) (line : List Char) (msg : String),
      line ∈ lines → parseInstructionLine line = .failed msg →
      ∃ m, processRange lines = .error m := by
  intro lines
  induction lines with
  | nil =>
    intro line msg hmem _
    simp at hmem
  | cons l rest ih =>
    intro line msg hmem hfail
    rcases hp : parseInstructionLine l with _ | m0 | i
    · rcases List.mem_cons.mp hmem with rfl | hmem2
      · rw [hp] at hfail
        cases hfail
      · obtain ⟨m2, hm2⟩ := ih line msg hmem2 hfail
        exact ⟨m2, by simp [processRange, hp, hm2]⟩
    · exact ⟨m0, by simp [processRange, hp]⟩
    · rcases List.mem_cons.mp hmem with rfl | hmem2
      · rw [hp] at hfail
        cases hfail
      · obtain ⟨m2, hm2⟩ := ih line msg hmem2 hfail
        exact ⟨m2, by simp [processRange, hp, hm2, GoResult.map]⟩

/-- C3 counterexample: inside a matched range, a line that cannot be parsed
into (address, bytes, mnemonic, operands) — here plain interleaved text — is
silently skipped: the extraction succeeds, returning 2 instructions for a
3-line range instead of failing. -/
theorem extraction_skips_nonmatching_line :
    parseInstructionLine demoGarbageLine = .noMatch
      ∧ processRange demoRangeLines = .ok [demoInstr1, demoInstr2]
      ∧ demoRangeLines.length = 3
      ∧ [demoInstr1, demoInstr2].length ≠ demoRangeLines.length := by
  refine ⟨by decide, by decide, by decide, by decide⟩

/-- C3 (amended): lines inside a matched range that do not match the
instruction-line grammar are silently skipped (intended: `objdump -S`
interleaves non-instruction text), so a successful extraction returns exactly
one instruction per *grammar-matching* line; a line that matches the grammar
but fails byte decoding or mnemonic parsing still aborts the whole extraction
with an error. -/
theorem extraction_skip_and_hard_failure :
    (∀ (lines : List (List Char)) (instrs : List MachineInstruction0),
        processRange lines = .ok instrs →
        instrs.length = lines.countP (fun l => (matchInstructionLine l).isSome))
      ∧ (∀ (lines : List (List Char)) (line : List Char) (msg : String),
          line ∈ lines → parseInstructionLine line = .failed msg →
          ∃ m, processRange lines = .error m) :=
  ⟨processRange_ok_count, processRange_error_of_failed⟩

/-- Witness for C3 (amended): the demo range yields one instruction per
matching line, and a matching line with an odd-length byte column makes the
extraction fail. -/
theorem extraction_skip_and_hard_failure_witness :
    ([demoInstr1, demoInstr2].length
        = demoRangeLines.countP (fun l => (matchInstructionLine l).isSome))
      ∧ ∃ m, processRange [demoBadHexLine] = .error m :=
  ⟨extraction_skip_and_hard_failure.1 demoRangeLines [demoInstr1, demoInstr2] (by decide),
   extraction_skip_and_hard_failure.2 [demoBadHexLine] demoBadHexLine
     "encoding/hex: odd length hex string" (by decide) (by decide)⟩


/-! ## Symbol-flag decoding lemmas -/

theorem flagPos0_cases (sym : Symbol) (c : Char) :
    (¬ legalFlag0 c ∧ ∃ m, flagPos0 sym c = .error m)
      ∨ (legalFlag0 c ∧ ∃ s, flagPos0 sym c = .ok s) := by
  unfold flagPos0 legalFlag0
  split_ifs with h1 h2 h3 h4 h5 <;> simp_all

theorem flagPos1_cases (sym : Symbol) (c : Char) :
    (¬ legalFlag1 c ∧ ∃ m, flagPos1 sym c = .error m)
      ∨ (legalFlag1 c ∧ ∃ s, flagPos1 sym c = .ok s) := by
  unfold flagPos1 legalFlag1
  split_ifs with h1 h2 <;> simp_all

theorem flagPos2_cases (sym : Symbol) (c : Char) :
    (¬ legalFlag2 c ∧ ∃ m, flagPos2 sym c = .error m)
      ∨ (legalFlag2 c ∧ ∃ s, flagPos2 sym c = .ok s) := by
  unfold flagPos2 legalFlag2
  split_ifs with h1 h2 <;> simp_all

theorem flagPos3_cases (sym : Symbol) (c : Char) :
    (¬ legalFlag3 c ∧ ∃ m, flagPos3 sym c = .error m)
      ∨ (legalFlag3 c ∧ ∃ s, flagPos3 sym c = .ok s) := by
  unfold flagPos3 legalFlag3
  split_ifs with h1 h2 <;> simp_all

theorem flagPos4_cases (sym : Symbol) (c : Char) :
    (¬ legalFlag4 c ∧ ∃ m, flagPos4 sym c = .error m)
      ∨ (legalFlag4 c ∧ ∃ s, flagPos4 sym c = .ok s) := by
  unfold flagPos4 legalFlag4
  split_ifs with h1 h2 h3 <;> simp_all

theorem flagPos5_cases (sym : Symbol) (c : Char) :
    (¬ legalFlag5 c ∧ ∃ m, flagPos5 sym c = .error m)
      ∨ (legalFlag5 c ∧ ∃ s, flagPos5 sym c = .ok s) := by
  unfold flagPos5 legalFlag5
  split_ifs with h1 h2 h3 <;> simp_all

theorem flagPos6_cases (sym : Symbol) (c : Char) :
    (¬ legalFlag6 c ∧ ∃ m, flagPos6 sym c = .error m)
      ∨ (legalFlag6 c ∧ ∃ s, flagPos6 sym c = .ok s) := by
  unfold flagPos6 legalFlag6
  split_ifs with h1 h2 h3 h4 <;> simp_all

/-- C6: decoding the 7-character flag string `"  C    "` produces a Symbol
with only the `Constructor` flag set; and for any 7-character flag string with
a character outside some position's closed legal alphabet (space being the
only wildcard), `parseFlagString` fails with an error — it never returns a
Symbol with the flag silently defaulted. -/
theorem flag_decode_constructor_and_closed_alphabet :
    (parseFlagString zeroSymbol ("  C    ".toList)
        = .ok { zeroSymbol with Constructor := true })
      ∧ (∀ (c0 c1 c2 c3 c4 c5 c6 : Char) (sym : Symbol),
          ¬(legalFlag0 c0 ∧ legalFlag1 c1 ∧ legalFlag2 c2 ∧ legalFlag3 c3
              ∧ legalFlag4 c4 ∧ legalFlag5 c5 ∧ legalFlag6 c6) →
          ∃ msg, parseFlagString sym [c0, c1, c2, c3, c4, c5, c6] = .error msg) := by
  refine ⟨by decide, fun c0 c1 c2 c3 c4 c5 c6 sym hno => ?_⟩
  rcases flagPos0_cases sym c0 with ⟨_, m0, h0⟩ | ⟨hl0, s0, h0⟩
  · exact ⟨m0, by simp [parseFlagString, h0, GoResult.bind]⟩
  rcases flagPos1_cases s0 c1 with ⟨_, m1, h1⟩ | ⟨hl1, s1, h1⟩
  · exact ⟨m1, by simp [parseFlagString, h0, h1, GoResult.bind]⟩
  rcases flagPos2_cases s1 c2 with ⟨_, m2, h2⟩ | ⟨hl2, s2, h2⟩
  · exact ⟨m2, by simp [parseFlagString, h0, h1, h2, GoResult.bind]⟩
  rcases flagPos3_cases s2 c3 with ⟨_, m3, h3⟩ | ⟨hl3, s3, h3⟩
  · exact ⟨m3, by simp [parseFlagString, h0, h1, h2, h3, GoResult.bind]⟩
  rcases flagPos4_cases s3 c4 with ⟨_, m4, h4⟩ | ⟨hl4, s4, h4⟩
  · exact ⟨m4, by simp [parseFlagString, h0, h1, h2, h3, h4, GoResult.bind]⟩
  rcases flagPos5_cases s4 c5 with ⟨_, m5, h5⟩ | ⟨hl5, s5, h5⟩
  · exact ⟨m5, by simp [parseFlagString, h0, h1, h2, h3, h4, h5, GoResult.bind]⟩
  rcases flagPos6_cases s5 c6 with ⟨_, m6, h6⟩ | ⟨hl6, s6, h6⟩
  · exact ⟨m6, by simp [parseFlagString, h0, h1, h2, h3, h4, h5, h6, GoResult.bind]⟩
  exact absurd ⟨hl0, hl1, hl2, hl3, hl4, hl5, hl6⟩ hno

/-- Witness for C6: the character `Z` is outside position 0's alphabet, and
decoding fails with an error. -/
theorem flag_decode_closed_alphabet_witness :
    ∃ msg, parseFlagString zeroSymbol ['Z', ' ', ' ', ' ', ' ', ' ', ' ']
      = .error msg :=
  flag_decode_constructor_and_closed_alphabet.2 'Z' ' ' ' ' ' ' ' ' ' ' ' '
    zeroSymbol (by decide)

theorem pos1FlagCount_le_one (s : Symbol) : pos1FlagCount s ≤ 1 := by
  unfold pos1FlagCount
  split <;> omega

theorem pos2FlagCount_le_one (s : Symbol) : pos2FlagCount s ≤ 1 := by
  unfold pos2FlagCount
  split <;> omega

theorem pos3FlagCount_le_one (s : Symbol) : pos3FlagCount s ≤ 1 := by
  unfold pos3FlagCount
  split <;> omega

theorem flagPos0_zero_counts (c : Char) (s : Symbol)
    (h : flagPos0 zeroSymbol c = .ok s) :
    pos0FlagCount s = (if c = '!' then 2 else if c = ' ' then 0 else 1)
      ∧ pos4FlagCount s = 0 ∧ pos5FlagCount s = 0 ∧ pos6FlagCount s = 0 := by
  unfold flagPos0 at h
  split_ifs at h with h1 h2 h3 h4 h5 <;> cases h
  · subst h1; decide
  · subst h2; decide
  · subst h3; decide
  · subst h4; decide
  · subst h5; decide

theorem flagPos1_counts (s : Symbol) (c : Char) (s2 : Symbol)
    (h : flagPos1 s c = .ok s2) :
    pos0FlagCount s2 = pos0FlagCount s ∧ pos4FlagCount s2 = pos4FlagCount s
      ∧ pos5FlagCount s2 = pos5FlagCount s ∧ pos6FlagCount s2 = pos6FlagCount s := by
  unfold flagPos1 at h
  split_ifs at h <;> cases h <;> exact ⟨rfl, rfl, rfl, rfl⟩

theorem flagPos2_counts (s : Symbol) (c : Char) (s2 : Symbol)
    (h : flagPos2 s c = .ok s2) :
    pos0FlagCount s2 = pos0FlagCount s ∧ pos4FlagCount s2 = pos4FlagCount s
      ∧ pos5FlagCount s2 = pos5FlagCount s ∧ pos6FlagCount s2 = pos6FlagCount s := by
  unfold flagPos2 at h
  split_ifs at h <;> cases h <;> exact ⟨rfl, rfl, rfl, rfl⟩

theorem flagPos3_counts (s : Symbol) (c : Char) (s2 : Symbol)
    (h : flagPos3 s c = .ok s2) :
    pos0FlagCount s2 = pos0FlagCount s ∧ pos4FlagCount s2 = pos4FlagCount s
      ∧ pos5FlagCount s2 = pos5FlagCount s ∧ pos6FlagCount s2 = pos6FlagCount s := by
  unfold flagPos3 at h
  split_ifs at h <;> cases h <;> exact ⟨rfl, rfl, rfl, rfl⟩

theorem flagPos4_counts (s : Symbol) (c : Char) (s2 : Symbol)
    (h : flagPos4 s c = .ok s2) :
    pos0FlagCount s2 = pos0FlagCount s ∧ pos5FlagCount s2 = pos5FlagCount s
      ∧ pos6FlagCount s2 = pos6FlagCount s
      ∧ (pos4FlagCount s = 0 → pos4FlagCount s2 ≤ 1) := by
  unfold flagPos4 at h
  split_ifs at h <;> cases h <;>
    refine ⟨rfl, rfl, rfl, fun h0 => ?_⟩ <;>
    · unfold pos4FlagCount at h0 ⊢
      split_ifs at h0 ⊢ <;> omega

theorem flagPos5_counts (s : Symbol) (c : Char) (s2 : Symbol)
    (h : flagPos5 s c = .ok s2) :
    pos0FlagCount s2 = pos0FlagCount s ∧ pos4FlagCount s2 = pos4FlagCount s
      ∧ pos6FlagCount s2 = pos6FlagCount s
      ∧ (pos5FlagCount s = 0 → pos5FlagCount s2 ≤ 1) := by
  unfold flagPos5 at h
  split_ifs at h <;> cases h <;>
    refine ⟨rfl, rfl, rfl, fun h0 => ?_⟩ <;>
    · unfold pos5FlagCount at h0 ⊢
      split_ifs at h0 ⊢ <;> omega

theorem flagPos6_counts (s : Symbol) (c : Char) (s2 : Symbol)
    (h : flagPos6 s c = .ok s2) :
    pos0FlagCount s2 = pos0FlagCount s ∧ pos4FlagCount s2 = pos4FlagCount s
      ∧ pos5FlagCount s2 = pos5FlagCount s
      ∧ (pos6FlagCount s = 0 → pos6FlagCount s2 ≤ 1) := by
  unfold flagPos6 at h
  split_ifs at h <;> cases h <;>
    refine ⟨rfl, rfl, rfl, fun h0 => ?_⟩ <;>
    · unfold pos6FlagCount at h0 ⊢
      split_ifs at h0 ⊢ <;> omega

/-- C10: decoding a flag string whose first character is `'!'` sets both
`Global` and `Local` — the only way two classification flags of the same
position can be set at once; on every other accepted 7-character flag string,
each position contributes at most one set flag. -/
theorem bang_flag_sets_global_and_local :
    (parseFlagString zeroSymbol ("!      ".toList)
        = .ok { zeroSymbol with Global := true, Local := true })
      ∧ (∀ (c0 c1 c2 c3 c4 c5 c6 : Char) (s : Symbol),
          parseFlagString zeroSymbol [c0, c1, c2, c3, c4, c5, c6] = .ok s →
          ((2 ≤ pos0FlagCount s ↔ c0 = '!')
            ∧ pos1FlagCount s ≤ 1 ∧ pos2FlagCount s ≤ 1 ∧ pos3FlagCount s ≤ 1
            ∧ pos4FlagCount s ≤ 1 ∧ pos5FlagCount s ≤ 1 ∧ pos6FlagCount s ≤ 1)) := by
  refine ⟨by decide, fun c0 c1 c2 c3 c4 c5 c6 s hok => ?_⟩
  simp only [parseFlagString] at hok
  rcases h0 : flagPos0 zeroSymbol c0 with s0 | m | m <;> rw [h0] at hok <;>
    simp only [GoResult.bind] at hok
  case error => cases hok
  case panicked => cases hok
  rcases h1 : flagPos1 s0 c1 with s1 | m | m <;> rw [h1] at hok <;>
    simp only [GoResult.bind] at hok
  case error => cases hok
  case panicked => cases hok
  rcases h2 : flagPos2 s1 c2 with s2 | m | m <;> rw [h2] at hok <;>
    simp only [GoResult.bind] at hok
  case error => cases hok
  case panicked => cases hok
  rcases h3 : flagPos3 s2 c3 with s3 | m | m <;> rw [h3] at hok <;>
    simp only [GoResult.bind] at hok
  case error => cases hok
  case panicked => cases hok
  rcases h4 : flagPos4 s3 c4 with s4 | m | m <;> rw [h4] at hok <;>
    simp only [GoResult.bind] at hok
  case error => cases hok
  case panicked => cases hok
  rcases h5 : flagPos5 s4 c5 with s5 | m | m <;> rw [h5] at hok <;>
    simp only [GoResult.bind] at hok
  case error => cases hok
  case panicked => cases hok
  obtain ⟨e0, e4, e5, e6⟩ := flagPos0_zero_counts c0 s0 h0
  obtain ⟨p10, p14, p15, p16⟩ := flagPos1_counts s0 c1 s1 h1
  obtain ⟨p20, p24, p25, p26⟩ := flagPos2_counts s1 c2 s2 h2
  obtain ⟨p30, p34, p35, p36⟩ := flagPos3_counts s2 c3 s3 h3
  obtain ⟨p40, p45, p46, b4⟩ := flagPos4_counts s3 c4 s4 h4
  obtain ⟨p50, p54, p56, b5⟩ := flagPos5_counts s4 c5 s5 h5
  obtain ⟨p60, p64, p65, b6⟩ := flagPos6_counts s5 c6 s hok
  refine ⟨?_, pos1FlagCount_le_one s, pos2FlagCount_le_one s,
    pos3FlagCount_le_one s, ?_, ?_, ?_⟩
  · rw [p60, p50, p40, p30, p20, p10, e0]
    by_cases hc : c0 = '!'
    · simp [hc]
    · simp only [hc, if_false]
      constructor
      · intro hge
        split_ifs at hge <;> omega
      · intro hcc
        exact hcc.elim
  · rw [p64, p54]
    exact b4 (by rw [p34, p24, p14, e4])
  · rw [p65]
    exact b5 (by rw [p45, p35, p25, p15, e5])
  · exact b6 (by rw [p56, p46, p36, p26, p16, e6])

/-- Witness for C10 at the concrete flag string `"!      "`. -/
theorem bang_flag_sets_global_and_local_witness :
    ((2 ≤ pos0FlagCount { zeroSymbol with Global := true, Local := true }
        ↔ ('!' : Char) = '!')
      ∧ pos1FlagCount { zeroSymbol with Global := true, Local := true } ≤ 1
      ∧ pos2FlagCount { zeroSymbol with Global := true, Local := true } ≤ 1
      ∧ pos3FlagCount { zeroSymbol with Global := true, Local := true } ≤ 1
      ∧ pos4FlagCount { zeroSymbol with Global := true, Local := true } ≤ 1
      ∧ pos5FlagCount { zeroSymbol with Global := true, Local := true } ≤ 1
      ∧ pos6FlagCount { zeroSymbol with Global := true, Local := true } ≤ 1) :=
  bang_flag_sets_global_and_local.2 '!' ' ' ' ' ' ' ' ' ' ' ' '
    { zeroSymbol with Global := true, Local := true } (by decide)

end Asm2go
